import Mathlib

/-!
# Verification of the sequence-graphs FMD-index mapping core

A shallow embedding of the mapping core of the sequence-graphs repository
(`src/libFMD/FMDIndex.cpp`, `src/libFMD/CreditFilter2.cpp`,
`src/createIndex/FMDIndexBuilder.cpp`) together with proofs about the mapping
state machines, the disambiguation rule, the credit filter and the index
builder.

The BWT, LCP array, suffix-array locate and contig metadata are the
primitives the code consumes (spec §6); they are modelled as function fields
of an `FMDIndexData` record, exactly as the C++ consults them through
`bwt.getPC`, `bwt.getOcc`, `lcpArray[...]`, `getLCPPSV`, `getLCPNSV`,
`locate` and `getContigLength`.  Machine integers are modelled as `Int`/`Nat`.
C++ exceptions are modelled with `Except`; the unbounded retraction loop of
`mapRight` is modelled with explicit fuel, where running out of fuel is an
error distinct from every error the C++ can throw.
-/

/-- The DNA alphabet `{A, C, G, T}` (spec §6; `isBase` in the source rejects
everything else, so search code only ever sees these four characters). -/
inductive Base where
  | A
  | C
  | G
  | T
deriving DecidableEq, Repr

/-- Modelled from the spec: the complement of a DNA base (`complement` lives
in a utility header that is not under `src/`). -/
def Base.complement : Base → Base
  | .A => .T
  | .C => .G
  | .G => .C
  | .T => .A

/-- Modelled from the spec: the `BASES` array, which the source stores "in
alphabetical order by reverse complement" (comment in `FMDIndex::extend`);
the array itself is declared in a header that is not under `src/`. -/
def BASES : List Base := [.T, .G, .C, .A]

/-- `TextPosition`: a `(text, offset)` pair (spec §3).  Both components are
`u64` in the source; offsets stay far below `2^64` so they are modelled as
`Nat`, with the `u64` wrap made explicit in `addOffset`. -/
structure TextPosition where
  text : Nat
  offset : Nat
deriving DecidableEq, Repr

/-- `TextPosition::addOffset(int64_t)`: adds a signed offset to the unsigned
offset field, wrapping modulo `2^64` as the C++ `uint64_t` arithmetic does. -/
def TextPosition.addOffset (t : TextPosition) (d : Int) : TextPosition :=
  { t with offset := (((t.offset : Int) + d) % (2 ^ 64 : Int)).toNat }

/-- `Mapping` (src/libFMD/Mapping.hpp): the mapping result for a query base.  The
`leftMinContext`/`rightMinContext` fields are the `left_min_unique` /
`right_min_unique` bookkeeping of the data model in the spec (§3), read by
`CreditFilter2` through `getLeftMinContext`/`getRightMinContext`. -/
structure Mapping where
  location : TextPosition
  is_mapped : Bool
  leftMaxContext : Nat
  rightMaxContext : Nat
  leftMinContext : Nat
  rightMinContext : Nat
deriving DecidableEq, Repr

/-- `Mapping::Mapping()`: an unmapped mapping (all bookkeeping zero). -/
def Mapping.unmapped : Mapping :=
  { location := ⟨0, 0⟩, is_mapped := false, leftMaxContext := 0,
    rightMaxContext := 0, leftMinContext := 0, rightMinContext := 0 }

/-- `Mapping::Mapping(TextPosition)`: a no-context mapping to a location. -/
def Mapping.ofLocation (t : TextPosition) : Mapping :=
  { location := t, is_mapped := true, leftMaxContext := 0,
    rightMaxContext := 0, leftMinContext := 0, rightMinContext := 0 }

/-- `FMDPosition`: a pair of BWT intervals `(forward_start, reverse_start,
end_offset)` (spec §3); both intervals have length `end_offset + 1`, and
zero-length ranges use `end_offset = -1`. -/
structure FMDPosition where
  forwardStart : Int
  reverseStart : Int
  endOffset : Int
deriving DecidableEq, Repr

/-- `EMPTY_FMD_POSITION`.  Modelled from the spec: zero-length ranges use
`end_offset = -1` (§3); the constant itself is declared in `FMDPosition.hpp`,
which is not under `src/`. -/
def EMPTY_FMD_POSITION : FMDPosition := ⟨0, 0, -1⟩

/-- `FMDPosition::flip()`: swap the forward and reverse intervals (spec §3). -/
def FMDPosition.flip (p : FMDPosition) : FMDPosition :=
  ⟨p.reverseStart, p.forwardStart, p.endOffset⟩

/-- A genome mask: an optional filter on BWT rows (spec §3, `GenomeMask`).
`none` is the C++ `NULL` mask pointer (all rows considered). -/
def Mask : Type := Option (Int → Bool)

/-- The BWT rows of the forward interval of an `FMDPosition`. -/
def FMDPosition.fwdRows (p : FMDPosition) : List Int :=
  (List.range (p.endOffset + 1).toNat).map (fun k => p.forwardStart + (k : Int))

/-- `FMDPosition::getLength(mask)`.  Modelled from the spec: the number of
BWT rows of the forward interval that pass the mask, or the plain interval
length `end_offset + 1` when no mask is given (§3, §4.2); the method body is
in `FMDPosition.cpp`, which is not under `src/`. -/
def FMDPosition.lengthMask (p : FMDPosition) (mask : Mask) : Nat :=
  match mask with
  | none => (p.endOffset + 1).toNat
  | some m => (p.fwdRows.filter m).length

/-- `FMDPosition::isEmpty(mask)`.  Modelled from the spec: no rows survive
the mask (§4.2 step 2 tests exactly this). -/
def FMDPosition.isEmptyMask (p : FMDPosition) (mask : Mask) : Bool :=
  p.lengthMask mask = 0

/-- `GenericBitVector::valueAfter(start).first`: the first set row at or
after `start` (spec §4.2 step 4 "skipping masked-out positions within the
interval using `mask.value_after(start)`").  Searching is bounded by `bound`
steps; every use site guarantees a set row inside the interval. -/
def maskValueAfter (m : Int → Bool) (start : Int) (bound : Nat) : Int :=
  match bound with
  | 0 => start
  | b + 1 => if m start then start else maskValueAfter m (start + 1) b

/-- The primitives the FMD-index consumes (spec §6): BWT prefix counts and
rank, the LCP array with PSV/NSV, suffix-array locate, and contig lengths.
`FMDIndex` owns these and is immutable after construction (spec §3). -/
structure FMDIndexData where
  bwtLen : Nat
  pc : Base → Int
  occ : Base → Int → Int
  lcp : Nat → Nat
  psv : Nat → Nat
  nsv : Nat → Nat
  locate : Int → TextPosition
  contigLength : Nat → Nat

/-- `FMDIndex::getCoveringPosition()`: the `FMDPosition` covering the whole
BWT, `FMDPosition(0, 0, getBWTLength() - 1)`. -/
def FMDIndexData.coveringPosition (d : FMDIndexData) : FMDPosition :=
  ⟨0, 0, (d.bwtLen : Int) - 1⟩

/-- `FMDIndex::extendLeftOnly(range, c)`: backward search updating only the
forward interval (src/libFMD/FMDIndex.cpp:508-536). -/
def FMDIndexData.extendLeftOnly (d : FMDIndexData) (range : FMDPosition)
    (c : Base) : FMDPosition :=
  let start := d.pc c
  let forwardStartRank := d.occ c (range.forwardStart - 1)
  let forwardEndRank := d.occ c (range.forwardStart + range.endOffset) - 1
  { range with
    forwardStart := start + forwardStartRank,
    endOffset := forwardEndRank - forwardStartRank }

/-- `FMDIndex::retractRightOnly(range)` (one-argument variant,
src/libFMD/FMDIndex.cpp:607-665): one parent-interval jump in the LCP,
returning the retracted position together with the new pattern length. -/
def FMDIndexData.retractRightOnly1 (d : FMDIndexData) (range : FMDPosition) :
    FMDPosition × Nat :=
  let rangeStart := range.forwardStart.toNat
  let rangeEnd := (range.forwardStart + range.endOffset + 1).toNat
  let startLCP := d.lcp rangeStart
  let endLCP := if rangeEnd < d.bwtLen then d.lcp rangeEnd else 0
  let useStart := endLCP ≤ startLCP
  let lcp := if useStart then startLCP else endLCP
  let lcpIndex := if useStart then rangeStart else rangeEnd
  let rangeStart' := d.psv lcpIndex
  let rangeEnd' := d.nsv lcpIndex
  ({ range with
     forwardStart := (rangeStart' : Int),
     endOffset := (rangeEnd' : Int) - (rangeStart' : Int) - 1 }, lcp)

/-- `FMDIndex::extend(range, c, backward)` (src/libFMD/FMDIndex.cpp:380-506):
full bidirectional extension.  Forward extension recurses as the flipped
backward extension with the complement (line 395).  The per-base `start`
deliberately reproduces the source, which reads `bwt.getPC(c)` (line 423) for
every base; only the answer for `c` is returned, so the forward starts
of the others never matter. -/
def FMDIndexData.extendBackward (d : FMDIndexData) (range : FMDPosition)
    (c : Base) : FMDPosition :=
  let start := d.pc c
  let answer := fun (b : Base) =>
    let forwardStartRank := d.occ b (range.forwardStart - 1)
    let forwardEndRank := d.occ b (range.forwardStart + range.endOffset) - 1
    (⟨start + forwardStartRank, 0, forwardEndRank - forwardStartRank⟩ :
      FMDPosition)
  let endOfTextLength := (range.endOffset + 1) -
    (BASES.map (fun b => (answer b).endOffset + 1)).sum
  let revStart := fun (b : Base) =>
    range.reverseStart + endOfTextLength +
      ((BASES.takeWhile (fun x => x ≠ b)).map
        (fun x => (answer x).endOffset + 1)).sum
  { answer c with reverseStart := revStart c }

/-- `FMDIndex::extend` with the `backward` flag: the not-backward case flips,
extends backward with the complement, and flips back. -/
def FMDIndexData.extend (d : FMDIndexData) (range : FMDPosition) (c : Base)
    (backward : Bool) : FMDPosition :=
  if backward then d.extendBackward range c
  else (d.extendBackward range.flip c.complement).flip

/-- The fatal error kinds the modelled code can raise (spec §7), plus
`outOfFuel`, which marks exhaustion of the explicit fuel bounding the C++
retraction loop and corresponds to no C++ behaviour. -/
inductive MapError where
  | missingAlphabet
  | outOfFuel
  | sizeMismatch
  | emptyMisMatchVector
  | emptyMisMatchFront
deriving DecidableEq, Repr

/-- The retract-and-retry loop of `FMDIndex::mapRight`
(src/libFMD/FMDIndex.cpp:986-1015): tentatively extend left; while the
tentative result is empty under the mask, throw `MissingAlphabet` if the
pattern length is zero, otherwise retract the search by one parent jump and
retry.  Returns the adopted state `(search, patternLength, extended)`. -/
def retractExtendLoop (d : FMDIndexData) (mask : Mask) (c : Base) :
    FMDPosition → Nat → Nat → Except MapError (FMDPosition × Nat × FMDPosition)
  | _, _, 0 => .error .outOfFuel
  | search, patternLength, fuel + 1 =>
    let extended := d.extendLeftOnly search c
    if extended.isEmptyMask mask then
      if patternLength = 0 then .error .missingAlphabet
      else
        let r := d.retractRightOnly1 search
        retractExtendLoop d mask c r.1 r.2 fuel
    else .ok (search, patternLength, extended)

/-- The row located by the emission step of `mapRight`
(src/libFMD/FMDIndex.cpp:1029-1036): the forward start of the interval, or,
under a mask, the first set row at or after it. -/
def maskedStart (d : FMDIndexData) (mask : Mask) (s : FMDPosition) : Int :=
  match mask with
  | none => s.forwardStart
  | some m => maskValueAfter m s.forwardStart d.bwtLen

/-- One iteration of the `mapRight` query loop
(src/libFMD/FMDIndex.cpp:981-1058): run the retraction loop, adopt the
extension, bump the pattern length, and emit a `Mapping` — mapped via
`locate` when the masked length is exactly 1 and the pattern length reaches
`minContext`, unmapped otherwise.  Returns the new search state, new pattern
length, and the emitted mapping. -/
def mapRightStep (d : FMDIndexData) (mask : Mask) (minContext : Nat)
    (c : Base) (search : FMDPosition) (patternLength : Nat) (fuel : Nat) :
    Except MapError (FMDPosition × Nat × Mapping) :=
  (retractExtendLoop d mask c search patternLength fuel).map
    (fun r =>
      let search' := r.2.2
      let patternLength' := r.2.1 + 1
      if search'.lengthMask mask = 1 ∧ minContext ≤ patternLength' then
        (search', patternLength',
          Mapping.ofLocation (d.locate (maskedStart d mask search')))
      else (search', patternLength', Mapping.unmapped))

/-- The `mapRight` loop over the query, processed right to left (the input
list here is the reversed query); mappings accumulate in processing order,
exactly as the C++ pushes them before the final `std::reverse`. -/
def mapRightAux (d : FMDIndexData) (mask : Mask) (minContext : Nat)
    (fuel : Nat) :
    List Base → FMDPosition → Nat → Except MapError (List Mapping)
  | [], _, _ => .ok []
  | c :: rest, search, patternLength => do
    let r ← mapRightStep d mask minContext c search patternLength fuel
    let ms ← mapRightAux d mask minContext fuel rest r.1 r.2.1
    pure (r.2.2 :: ms)

/-- `FMDIndex::mapRight(query, mask, minContext)`
(src/libFMD/FMDIndex.cpp:958-1068): start from the covering position with
pattern length 0, iterate the query from its last position to its first, and
reverse the collected mappings into query order. -/
def mapRight (d : FMDIndexData) (mask : Mask) (minContext : Nat) (fuel : Nat)
    (query : List Base) : Except MapError (List Mapping) :=
  (mapRightAux d mask minContext fuel query.reverse d.coveringPosition 0).map
    List.reverse

/-- Modelled from the spec: `reverse_complement` (spec §3, §4.2; the string
utility is not under `src/`): reverse the sequence and complement each
base. -/
def reverseComplement (query : List Base) : List Base :=
  (query.map Base.complement).reverse

/-- The per-mapping flip loop body of `FMDIndex::mapLeft`
(src/libFMD/FMDIndex.cpp:1088-1100): for a mapped mapping, XOR the text with
1 and reflect the offset within its contig; unmapped mappings stay as they
are.  `getContigNumber` is `text / 2` (line 190). -/
def flipMappingLoc (d : FMDIndexData) (m : Mapping) : Mapping :=
  if m.is_mapped then
    let contigLength := d.contigLength (m.location.text / 2)
    { m with location :=
        ⟨m.location.text ^^^ 1, contigLength - m.location.offset - 1⟩ }
  else m

/-- `FMDIndex::mapLeft(query, genome, minContext)`
(src/libFMD/FMDIndex.cpp:1078-1105): map the reverse complement on the right,
reverse into query order, and flip every mapped location to the other
strand.  The genome argument only selects the mask (line 1074), so the model
takes the mask directly. -/
def mapLeft (d : FMDIndexData) (mask : Mask) (minContext : Nat) (fuel : Nat)
    (query : List Base) : Except MapError (List Mapping) :=
  (mapRight d mask minContext fuel (reverseComplement query)).map
    (fun mappings => (mappings.reverse).map (flipMappingLoc d))

/-- `FMDIndex::disambiguate(left, right)`
(src/libFMD/FMDIndex.cpp:1775-1790): if the two agree or the left is
unmapped, use the right; if the right is unmapped, use the left; otherwise
they disagree and the result is unmapped.  `Mapping::operator==` is declared
in src/libFMD/Mapping.hpp but its body is not under `src/`; modelled from
the value-record reading the spec gives of `Mapping` (§3) as structural equality. -/
def disambiguate (left right : Mapping) : Mapping :=
  if left = right ∨ left.is_mapped = false then right
  else if right.is_mapped = false then left
  else Mapping.unmapped

/-- `FMDIndex::mapBoth(query, genome, minContext)`
(src/libFMD/FMDIndex.cpp:1107-1131): run `mapRight` and `mapLeft` with the
same parameters, check the lengths agree, and disambiguate elementwise. -/
def mapBoth (d : FMDIndexData) (mask : Mask) (minContext : Nat) (fuel : Nat)
    (query : List Base) : Except MapError (List Mapping) := do
  let right ← mapRight d mask minContext fuel query
  let left ← mapLeft d mask minContext fuel query
  if left.length ≠ right.length then .error .sizeMismatch
  else pure (List.zipWith disambiguate left right)

/-- The state record of the k-mismatch search (`MisMatchAttemptResults`):
a list of `(FMDPosition, z)` pairs with accumulated mismatch counts, plus
the bookkeeping fields the source reads and writes (spec §4.6). -/
structure MisMatchAttemptResults where
  positions : List (FMDPosition × Nat)
  characters : Nat
  maxCharacters : Nat
  is_mapped : Bool
deriving DecidableEq, Repr

/-- The bases other than `c`, in `BASES` order, as iterated by the mismatch
loops of `FMDIndex::misMatchExtend` (lines 1849, 1875). -/
def misMatchBases (c : Base) : List Base :=
  BASES.filter (fun b => b ≠ c)

/-- The extensions contributed by one `(position, z)` state in
`FMDIndex::misMatchExtend` (src/libFMD/FMDIndex.cpp:1825-1892): with
`startExtension`, only the matched extension; with `finishExtension`, only
the mismatched ones (when `z < z_max`); otherwise both.  Extensions that are
empty under the mask are dropped. -/
def misMatchExtendOne (d : FMDIndexData) (c : Base) (backward : Bool)
    (zMax : Nat) (mask : Mask) (startExtension finishExtension : Bool)
    (pz : FMDPosition × Nat) : List (FMDPosition × Nat) :=
  let matched :=
    let e := d.extend pz.1 c backward
    if 0 < e.lengthMask mask then [(e, pz.2)] else []
  let misMatched :=
    if pz.2 < zMax then
      (misMatchBases c).filterMap (fun b =>
        let e := d.extend pz.1 b backward
        if 0 < e.lengthMask mask then some (e, pz.2 + 1) else none)
    else []
  if startExtension then matched
  else if finishExtension then misMatched
  else matched ++ misMatched

/-- `FMDIndex::misMatchExtend` (src/libFMD/FMDIndex.cpp:1792-1909): extend
every surviving `(position, z)` state by the query character and, where
`z < z_max`, by each mismatched base; throw on an empty state list, an empty
front position, or (in the source) a non-base character — the `Base` type
already excludes the latter.  When nothing survives, the result holds the
single pair `(EMPTY_FMD_POSITION, 0)`.  The C++ leaves `maxCharacters` of
the result default-constructed; the model zero-initialises it. -/
def misMatchExtend (d : FMDIndexData) (prev : MisMatchAttemptResults)
    (c : Base) (backward : Bool) (zMax : Nat) (mask : Mask)
    (startExtension finishExtension : Bool) :
    Except MapError MisMatchAttemptResults :=
  match prev.positions with
  | [] => .error .emptyMisMatchVector
  | front :: _ =>
    if front.1.isEmptyMask mask then .error .emptyMisMatchFront
    else
      let next := prev.positions.flatMap
        (misMatchExtendOne d c backward zMax mask startExtension
          finishExtension)
      let next := if next = [] then [(EMPTY_FMD_POSITION, 0)] else next
      .ok { positions := next, characters := prev.characters,
            maxCharacters := 0, is_mapped := prev.is_mapped }

/-- Indexing into a mapping vector, defaulting to an unmapped mapping; every
use site in the modelled loops stays in bounds, where this agrees with C++
`std::vector` indexing. -/
def mnth (l : List Mapping) (i : Nat) : Mapping :=
  l.getD i Mapping.unmapped

/-- The C++ `size_t` expression `n - 1`, which wraps to `2^64 - 1` when
`n = 0` (the context-reach tests of `CreditFilter2::apply`, lines 149 and
206, compute `getRightMaxContext() - 1` and `getLeftMaxContext() - 1` in
unsigned arithmetic). -/
def sizeSub1 (n : Nat) : Nat :=
  if n = 0 then 2 ^ 64 - 1 else n - 1

/-- The left-sentinel word `query.substr(i + 1 - wordLength, wordLength)`
(src/libFMD/CreditFilter2.cpp:40): the `wordLength` query characters whose
right end sits at `i`. -/
def wordAtLeft (query : List Base) (i wordLength : Nat) : List Base :=
  (query.take (i + 1)).drop (i + 1 - wordLength)

/-- The right-sentinel word `query.substr(i, wordLength)`
(src/libFMD/CreditFilter2.cpp:65): the `wordLength` query characters whose
left end sits at `i`. -/
def wordAtRight (query : List Base) (i wordLength : Nat) : List Base :=
  (query.drop i).take wordLength

/-- The left-sentinel search of `CreditFilter2::apply`
(src/libFMD/CreditFilter2.cpp:28-51): the smallest `i` that is mapped on the
left, mapped after disambiguation, and whose left word is found uniquely
within `z_max` mismatches.  `wordUnique` stands for
`index.misMatchCount(ranges, word, z_max).is_mapped`, whose code is not
under `src/`. -/
def findLeftSentinel (wordUnique : List Base → Bool)
    (leftMappings disambiguated : List Mapping) (query : List Base) :
    Option Nat :=
  (List.range disambiguated.length).find? (fun i =>
    (mnth leftMappings i).is_mapped ∧ (mnth disambiguated i).is_mapped ∧
      wordUnique (wordAtLeft query i (mnth disambiguated i).leftMinContext))

/-- The right-sentinel search of `CreditFilter2::apply`
(src/libFMD/CreditFilter2.cpp:53-76): the largest `i` that is mapped on the
right, mapped after disambiguation, and whose right word is found uniquely
within `z_max` mismatches. -/
def findRightSentinel (wordUnique : List Base → Bool)
    (rightMappings disambiguated : List Mapping) (query : List Base) :
    Option Nat :=
  (List.range disambiguated.length).reverse.find? (fun i =>
    (mnth rightMappings i).is_mapped ∧ (mnth disambiguated i).is_mapped ∧
      wordUnique (wordAtRight query i (mnth disambiguated i).rightMinContext))

/-- `maxLeftContext` of `CreditFilter2::apply` (lines 89-104): the maximum
left max-context over the disambiguated vector. -/
def maxLeftContextOf (disambiguated : List Mapping) : Nat :=
  (disambiguated.map Mapping.leftMaxContext).foldl max 0

/-- `maxRightContext` of `CreditFilter2::apply` (lines 89-104): the maximum
right max-context over the disambiguated vector. -/
def maxRightContextOf (disambiguated : List Mapping) : Nat :=
  (disambiguated.map Mapping.rightMaxContext).foldl max 0

/-- The neighbour scan shared by the two credit loops of
`CreditFilter2::apply` (lines 136-179 and 191-236): visit candidate
positions in loop order, skip ineligible ones, record the first implied
position, and break with `consistent = false` at the first disagreeing
implication.  Returns `(found, creditPosition, consistent)`. -/
def creditScanGo (eligible : Nat → Bool) (implied : Nat → TextPosition) :
    List Nat → Bool → TextPosition → Bool × TextPosition × Bool
  | [], found, pos => (found, pos, true)
  | j :: rest, found, pos =>
    if eligible j then
      if found then
        if pos = implied j then creditScanGo eligible implied rest found pos
        else (found, pos, false)
      else creditScanGo eligible implied rest true (implied j)
    else creditScanGo eligible implied rest found pos

/-- Right-context credit for base `i` (src/libFMD/CreditFilter2.cpp:130-179):
scan `j = i - 1` down to `i - maxRightContext`; a base gives credit when it
is right-mapped, disambiguated-mapped, and its right max-context reaches `i`
(unsigned `getRightMaxContext() - 1 < i - j` test); it implies
`disambiguated[j].location + (i - j)`. -/
def rightCredit (rightMappings disambiguated : List Mapping)
    (maxRightContext i : Nat) : Bool × TextPosition × Bool :=
  let js := (List.range (min i maxRightContext)).map (fun k => i - 1 - k)
  let eligible := fun j =>
    (mnth rightMappings j).is_mapped ∧ (mnth disambiguated j).is_mapped ∧
      ¬ sizeSub1 (mnth disambiguated j).rightMaxContext < i - j
  let implied := fun j =>
    ((mnth disambiguated j).location).addOffset ((i : Int) - (j : Int))
  creditScanGo (fun j => eligible j) implied js false ⟨0, 0⟩

/-- Left-context credit for base `i` (src/libFMD/CreditFilter2.cpp:181-236):
scan `j = i + 1` up while `j < size` and `j < i + maxLeftContext`; a base
gives credit when it is left-mapped, disambiguated-mapped, and its left
max-context reaches back to `i` (unsigned `getLeftMaxContext() - 1 < j - i`
test); it implies `disambiguated[j].location + (i - j)`. -/
def leftCredit (leftMappings disambiguated : List Mapping)
    (maxLeftContext i : Nat) : Bool × TextPosition × Bool :=
  let hi := min disambiguated.length (i + maxLeftContext)
  let js := (List.range (hi - (i + 1))).map (fun k => i + 1 + k)
  let eligible := fun j =>
    (mnth leftMappings j).is_mapped ∧ (mnth disambiguated j).is_mapped ∧
      ¬ sizeSub1 (mnth disambiguated j).leftMaxContext < j - i
  let implied := fun j =>
    ((mnth disambiguated j).location).addOffset ((i : Int) - (j : Int))
  creditScanGo (fun j => eligible j) implied js false ⟨0, 0⟩

/-- The credit decision tree of `CreditFilter2::apply`
(src/libFMD/CreditFilter2.cpp:240-264): map from the left when only the left
side is found-and-consistent, from the right when only the right side is,
require agreement when both are, and emit unmapped otherwise. -/
def creditDecision (left right : Bool × TextPosition × Bool) : Mapping :=
  if left.1 ∧ left.2.2 then
    if right.1 ∧ right.2.2 then
      if left.2.1 = right.2.1 then Mapping.ofLocation left.2.1
      else Mapping.unmapped
    else Mapping.ofLocation left.2.1
  else if right.1 ∧ right.2.2 then Mapping.ofLocation right.2.1
  else Mapping.unmapped

/-- One interior entry of `CreditFilter2::apply` (lines 117-267): positions
already mapped after disambiguation pass through; unmapped ones get the
credit decision from the two neighbour scans. -/
def creditInterior (leftMappings rightMappings disambiguated : List Mapping)
    (i : Nat) : Mapping :=
  if (mnth disambiguated i).is_mapped then mnth disambiguated i
  else
    creditDecision
      (leftCredit leftMappings disambiguated
        (maxLeftContextOf disambiguated) i)
      (rightCredit rightMappings disambiguated
        (maxRightContextOf disambiguated) i)

/-- The body of `CreditFilter2::apply` after disambiguation
(src/libFMD/CreditFilter2.cpp:21-277): find the sentinels; without both
sentinels, or with no space between them, return the disambiguated vector
unchanged; otherwise copy it up to the left sentinel, credit-map the strict
interior, and copy it from the right sentinel on. -/
def creditApplyBody (wordUnique : List Base → Bool)
    (leftMappings rightMappings disambiguated : List Mapping)
    (query : List Base) : List Mapping :=
  match findLeftSentinel wordUnique leftMappings disambiguated query,
      findRightSentinel wordUnique rightMappings disambiguated query with
  | some leftSentinel, some rightSentinel =>
    if rightSentinel ≤ leftSentinel then disambiguated
    else
      ((List.range (leftSentinel + 1)).map (fun i => mnth disambiguated i)) ++
        ((List.range (rightSentinel - (leftSentinel + 1))).map (fun k =>
          creditInterior leftMappings rightMappings disambiguated
            (leftSentinel + 1 + k))) ++
        ((List.range (disambiguated.length - rightSentinel)).map (fun k =>
          mnth disambiguated (rightSentinel + k)))
  | _, _ => disambiguated

/-- Modelled from the spec: the `DisambiguateFilter::apply` step of
`CreditFilter2::apply` (its code is not under `src/`): "`disambiguated[i] ←
disambiguate(left[i], right[i])` (§4.3 rule)" (spec §4.7 step 1). -/
def disambiguateFilter (leftMappings rightMappings : List Mapping) :
    List Mapping :=
  List.zipWith disambiguate leftMappings rightMappings

/-- `CreditFilter2::apply(leftMappings, rightMappings, query)`
(src/libFMD/CreditFilter2.cpp:12-278): disambiguate, then run the credit
body.  `wordUnique` stands for the `misMatchCount` uniqueness oracle. -/
def creditFilter2Apply (wordUnique : List Base → Bool)
    (leftMappings rightMappings : List Mapping) (query : List Base) :
    List Mapping :=
  creditApplyBody wordUnique leftMappings rightMappings
    (disambiguateFilter leftMappings rightMappings) query

/-- The build-error kind of the index-builder adapter (spec §7). -/
inductive BuildError where
  | indexBuildFailed
deriving DecidableEq, Repr

/-- The exit-path skeleton of `FMDIndexBuilder::add`
(src/createIndex/FMDIndexBuilder.cpp:46-153), as a function of the child
exit status of the child process: a nonzero status throws `IndexBuildFailed` (line 143)
and control never reaches `remove_all(tempDir)` (line 151); a zero status
merges and then removes the temporary directory.  The returned flag records
whether the temporary directory was removed. -/
def builderAdd (childStatus : Int) : Option BuildError × Bool :=
  if childStatus ≠ 0 then (some BuildError.indexBuildFailed, false)
  else (none, true)

/-- A tiny concrete index for concrete runs: a 4-row BWT in which every base
has exactly one occurrence, sitting at row 0 of its block. -/
def d0 : FMDIndexData :=
  { bwtLen := 4, pc := fun _ => 0,
    occ := fun _ i => if i < 0 then 0 else 1,
    lcp := fun _ => 0, psv := fun _ => 0, nsv := fun _ => 0,
    locate := fun i => ⟨0, i.toNat⟩, contigLength := fun _ => 8 }

/-- A concrete index whose rank function reports no occurrences at all, so
every left extension comes back empty. -/
def d1 : FMDIndexData :=
  { bwtLen := 4, pc := fun _ => 0, occ := fun _ _ => 0,
    lcp := fun _ => 0, psv := fun _ => 0, nsv := fun _ => 0,
    locate := fun i => ⟨0, i.toNat⟩, contigLength := fun _ => 8 }

/-- C9: `FMDIndexBuilder::add` does NOT release its temporary working
directory on the failure path: a nonzero child exit status raises
`IndexBuildFailed` at src/createIndex/FMDIndexBuilder.cpp:143 before control
can reach `remove_all(tempDir)` at line 151, so the directory is removed
only on the success path.  This contradicts the claim (and the resource model of the
spec), which require release on every exit path. -/
theorem builderAdd_leaks_tempdir_on_failure :
    builderAdd 256 = (some BuildError.indexBuildFailed, false) ∧
      builderAdd 0 = (none, true) := by
  decide

/-- Counterexample to C2 as stated: two distinct unmapped mappings are not
`disambiguate`-commutative as values — `disambiguate(a, b)` returns `b` and
`disambiguate(b, a)` returns `a`. -/
theorem disambiguate_commutative_counterexample :
    disambiguate { Mapping.unmapped with leftMaxContext := 1 }
        Mapping.unmapped ≠
      disambiguate Mapping.unmapped
        { Mapping.unmapped with leftMaxContext := 1 } := by
  decide

/-- C2 (amended): `disambiguate` is idempotent, and it is commutative
whenever the two arguments are equal or at least one of them is mapped; for
two distinct unmapped arguments the two orders return the two (distinct)
arguments, which still agree on being unmapped. -/
theorem disambiguate_idempotent_and_commutative_amended (a b x : Mapping) :
    disambiguate x x = x ∧
      (a = b ∨ a.is_mapped = true ∨ b.is_mapped = true →
        disambiguate a b = disambiguate b a) ∧
      (disambiguate a b).is_mapped = (disambiguate b a).is_mapped := by
  refine ⟨by simp [disambiguate], ?_, ?_⟩
  · intro h
    by_cases hab : a = b
    · subst hab; rfl
    · have hne : ¬ b = a := fun e => hab e.symm
      rcases h with h | h | h
      · exact absurd h hab
      · by_cases hb : b.is_mapped = true
        · simp [disambiguate, hab, hne, h, hb]
        · simp [disambiguate, hab, hne, h,
            Bool.not_eq_true b.is_mapped ▸ hb]
      · by_cases ha : a.is_mapped = true
        · simp [disambiguate, hab, hne, h, ha]
        · simp [disambiguate, hab, hne, h,
            Bool.not_eq_true a.is_mapped ▸ ha]
  · by_cases hab : a = b
    · subst hab; rfl
    · have hne : ¬ b = a := fun e => hab e.symm
      cases ha : a.is_mapped <;> cases hb : b.is_mapped <;>
        simp [disambiguate, hab, hne, ha, hb]

/-- Witness for the amended C2 at concrete mappings: commutativity with one
side mapped, and idempotence. -/
theorem disambiguate_amended_witness :
    disambiguate (Mapping.ofLocation ⟨0, 0⟩) Mapping.unmapped =
        disambiguate Mapping.unmapped (Mapping.ofLocation ⟨0, 0⟩) ∧
      disambiguate (Mapping.ofLocation ⟨3, 5⟩) (Mapping.ofLocation ⟨3, 5⟩) =
        Mapping.ofLocation ⟨3, 5⟩ :=
  ⟨(disambiguate_idempotent_and_commutative_amended
      (Mapping.ofLocation ⟨0, 0⟩) Mapping.unmapped
      (Mapping.ofLocation ⟨3, 5⟩)).2.1 (Or.inr (Or.inl (by decide))),
    (disambiguate_idempotent_and_commutative_amended
      (Mapping.ofLocation ⟨0, 0⟩) Mapping.unmapped
      (Mapping.ofLocation ⟨3, 5⟩)).1⟩

/-- Modelled from the spec: the agree-to-map rule of §4.3, written from the
words of the claim — if the two sides agree or one is unmapped, the result is the
other (or the mapped) one; if both are mapped and disagree, unmapped. -/
def agreeRule (l r : Mapping) : Mapping :=
  if l = r then r
  else if l.is_mapped = false then r
  else if r.is_mapped = false then l
  else Mapping.unmapped

/-- The `disambiguate` of the source computes exactly the agree-to-map
rule of the spec. -/
theorem disambiguate_eq_agreeRule (l r : Mapping) :
    disambiguate l r = agreeRule l r := by
  unfold disambiguate agreeRule
  by_cases h1 : l = r
  · simp [h1]
  · by_cases h2 : l.is_mapped = false <;> simp [h1, h2]

/-- C3: whenever `mapBoth` succeeds, its result vector is exactly the
elementwise agree-to-map combination of the `mapLeft` and `mapRight` results
for the same query, genome mask and minimum context. -/
theorem mapBoth_agree_to_map (d : FMDIndexData) (mask : Mask)
    (minContext fuel : Nat) (query : List Base) (v : List Mapping)
    (h : mapBoth d mask minContext fuel query = .ok v) :
    ∃ L R, mapLeft d mask minContext fuel query = .ok L ∧
      mapRight d mask minContext fuel query = .ok R ∧
      L.length = R.length ∧ v = List.zipWith agreeRule L R := by
  unfold mapBoth at h
  cases hR : mapRight d mask minContext fuel query with
  | error e => rw [hR] at h; simp [Bind.bind, Except.bind] at h
  | ok R =>
    rw [hR] at h
    cases hL : mapLeft d mask minContext fuel query with
    | error e => rw [hL] at h; simp [Bind.bind, Except.bind] at h
    | ok L =>
      rw [hL] at h
      simp only [Bind.bind, Except.bind] at h
      by_cases hlen : L.length ≠ R.length
      · simp [hlen] at h
      · rw [not_ne_iff] at hlen
        simp only [hlen, ne_eq, not_true_eq_false, if_false, Pure.pure,
          Except.pure, Except.ok.injEq] at h
        refine ⟨L, R, rfl, rfl, hlen, ?_⟩
        rw [← h]
        have hfun : disambiguate = agreeRule :=
          funext fun l => funext fun r => disambiguate_eq_agreeRule l r
        rw [hfun]

/-- Witness for C3 at a concrete index and query: a one-base query whose
left and right mappings land on opposite strands, so the disambiguated
result is unmapped. -/
theorem mapBoth_agree_to_map_witness :
    ∃ L R, mapLeft d0 none 1 5 [Base.A] = .ok L ∧
      mapRight d0 none 1 5 [Base.A] = .ok R ∧
      L.length = R.length ∧
      [Mapping.unmapped] = List.zipWith agreeRule L R :=
  mapBoth_agree_to_map d0 none 1 5 [Base.A] [Mapping.unmapped] rfl

/-- Modelled from the spec: one parent-interval jump (§4.1 right retraction,
steps 1-2).  For the forward interval `[a, b)`, compare `LCP[a]` and
`LCP[b]` (out-of-bounds treated as 0); the index carrying the greater value
(ties defaulting to the start) names the parent node, whose interval is
`[PSV(idx), NSV(idx))`; the string depth of the parent — the greater LCP value —
is the new pattern length. -/
def parentJumpSpec (d : FMDIndexData) (p : FMDPosition) :
    FMDPosition × Nat :=
  let a := p.forwardStart.toNat
  let b := (p.forwardStart + p.endOffset + 1).toNat
  let lcpA := d.lcp a
  let lcpB := if b < d.bwtLen then d.lcp b else 0
  let idx := if lcpA < lcpB then b else a
  ({ p with
     forwardStart := (d.psv idx : Int),
     endOffset := (d.nsv idx : Int) - (d.psv idx : Int) - 1 },
   max lcpA lcpB)

/-- C5: on every non-empty `FMDPosition`, the one-argument
`retractRightOnly` performs exactly one parent jump — it replaces the
forward interval by the PSV/NSV interval of the end with the greater LCP
value (ties to the start, out-of-bounds end LCP read as 0) and returns that
greater LCP value as the new pattern length. -/
theorem retractRightOnly_single_parent_jump (d : FMDIndexData)
    (p : FMDPosition) (_hne : 0 ≤ p.endOffset) :
    d.retractRightOnly1 p = parentJumpSpec d p := by
  unfold FMDIndexData.retractRightOnly1 parentJumpSpec
  by_cases hle :
      (if (p.forwardStart + p.endOffset + 1).toNat < d.bwtLen then
        d.lcp (p.forwardStart + p.endOffset + 1).toNat else 0) ≤
      d.lcp p.forwardStart.toNat
  · have hnlt : ¬ d.lcp p.forwardStart.toNat <
        (if (p.forwardStart + p.endOffset + 1).toNat < d.bwtLen then
          d.lcp (p.forwardStart + p.endOffset + 1).toNat else 0) :=
      not_lt.mpr hle
    simp only [hle, if_true, hnlt, if_false, Nat.max_eq_left hle]
  · have hlt : d.lcp p.forwardStart.toNat <
        (if (p.forwardStart + p.endOffset + 1).toNat < d.bwtLen then
          d.lcp (p.forwardStart + p.endOffset + 1).toNat else 0) :=
      not_le.mp hle
    simp only [hle, if_false, hlt, if_true,
      Nat.max_eq_right (le_of_lt hlt)]

/-- Witness for C5 at a concrete non-empty position of the concrete index. -/
theorem retractRightOnly_single_parent_jump_witness :
    (0 : Int) ≤ (1 : Int) ∧
      d0.retractRightOnly1 ⟨1, 0, 1⟩ = parentJumpSpec d0 ⟨1, 0, 1⟩ :=
  ⟨by decide, retractRightOnly_single_parent_jump d0 ⟨1, 0, 1⟩ (by decide)⟩

/-- Counterexample to C1 as stated: at a concrete index and query position,
`mapRight` emits a mapped `Mapping` with pattern length `L = 2` whose
location is the located position of the single surviving row with nothing
added — not with `L - 1` added, as the claim requires.  The final conjunct
shows the emission inside a full `mapRight` call on the query `AA`. -/
theorem mapRight_emitted_location_counterexample :
    mapRightStep d0 none 1 .A ⟨0, 0, 0⟩ 1 5 =
        .ok (⟨0, 0, 0⟩, 2, Mapping.ofLocation ⟨0, 0⟩) ∧
      (Mapping.ofLocation (⟨0, 0⟩ : TextPosition)).is_mapped = true ∧
      (Mapping.ofLocation (⟨0, 0⟩ : TextPosition)).location ≠
        (d0.locate ((⟨0, 0, 0⟩ : FMDPosition).forwardStart)).addOffset
          ((2 : Int) - 1) ∧
      mapRight d0 none 1 5 [.A, .A] =
        .ok [Mapping.ofLocation ⟨0, 0⟩, Mapping.ofLocation ⟨0, 0⟩] := by
  refine ⟨rfl, rfl, by decide, rfl⟩

/-- C1 (amended): whenever a `mapRight` iteration emits a mapped `Mapping`,
the masked length of the adopted interval is exactly 1, the new pattern
length reaches `minContext`, and the emitted location is exactly the
located `(text, offset)` of the single surviving BWT row (the start of the
pattern occurrence, i.e. the query base being mapped), with nothing added
to the offset. -/
theorem mapRight_emission_characterization (d : FMDIndexData) (mask : Mask)
    (minContext : Nat) (c : Base) (search : FMDPosition) (pl fuel : Nat)
    (s' : FMDPosition) (pl' : Nat) (m : Mapping)
    (h : mapRightStep d mask minContext c search pl fuel = .ok (s', pl', m))
    (hm : m.is_mapped = true) :
    s'.lengthMask mask = 1 ∧ minContext ≤ pl' ∧
      m = Mapping.ofLocation (d.locate (maskedStart d mask s')) := by
  unfold mapRightStep at h
  cases hloop : retractExtendLoop d mask c search pl fuel with
  | error e => rw [hloop] at h; simp [Except.map] at h
  | ok r =>
    rw [hloop] at h
    simp only [Except.map, Except.ok.injEq] at h
    by_cases hcond : r.2.2.lengthMask mask = 1 ∧ minContext ≤ r.2.1 + 1
    · rw [if_pos hcond] at h
      simp only [Prod.mk.injEq] at h
      obtain ⟨hs, hpl, hmm⟩ := h
      subst hs; subst hpl; subst hmm
      exact ⟨hcond.1, hcond.2, rfl⟩
    · rw [if_neg hcond] at h
      simp only [Prod.mk.injEq] at h
      obtain ⟨hs, hpl, hmm⟩ := h
      rw [← hmm] at hm
      simp [Mapping.unmapped] at hm

/-- Witness for the amended C1 at the concrete emission used in the
counterexample: masked length 1, sufficient context, and the location is
the located row with nothing added. -/
theorem mapRight_emission_characterization_witness :
    (⟨0, 0, 0⟩ : FMDPosition).lengthMask none = 1 ∧ 1 ≤ 2 ∧
      Mapping.ofLocation (⟨0, 0⟩ : TextPosition) =
        Mapping.ofLocation (d0.locate
          (maskedStart d0 none ⟨0, 0, 0⟩)) :=
  mapRight_emission_characterization d0 none 1 .A ⟨0, 0, 0⟩ 1 5 ⟨0, 0, 0⟩ 2
    (Mapping.ofLocation ⟨0, 0⟩) rfl rfl

/-- C4: whenever the tentative left extension is empty under the mask, the
`mapRight` retraction loop entered at pattern length 0 fails the whole call
with the fatal `MissingAlphabet` error (no mapping is emitted for that
position), and entered at a nonzero pattern length it retracts the search
by exactly one parent jump and retries the extension. -/
theorem mapRight_retraction_loop_behaviour (d : FMDIndexData) (mask : Mask)
    (c : Base) (search : FMDPosition) (pl fuel : Nat)
    (hempty : (d.extendLeftOnly search c).isEmptyMask mask = true) :
    (pl = 0 →
      retractExtendLoop d mask c search pl (fuel + 1) =
          .error .missingAlphabet ∧
        ∀ minContext rest,
          mapRightAux d mask minContext (fuel + 1) (c :: rest) search 0 =
            .error .missingAlphabet) ∧
      (pl ≠ 0 →
        retractExtendLoop d mask c search pl (fuel + 1) =
          retractExtendLoop d mask c (d.retractRightOnly1 search).1
            (d.retractRightOnly1 search).2 fuel) := by
  constructor
  · intro h0
    subst h0
    have hloop : retractExtendLoop d mask c search 0 (fuel + 1) =
        .error .missingAlphabet := by
      simp [retractExtendLoop, hempty]
    refine ⟨hloop, ?_⟩
    intro minContext rest
    simp [mapRightAux, mapRightStep, hloop, Except.map, Bind.bind,
      Except.bind]
  · intro hne
    simp [retractExtendLoop, hempty, hne]

/-- Witness for C4 at the concrete index with an all-zero rank function:
the first extension is empty at pattern length 0, and both the loop and the
whole `mapRight` iteration fail with `MissingAlphabet`. -/
theorem mapRight_retraction_loop_behaviour_witness :
    retractExtendLoop d1 none .A d1.coveringPosition 0 (4 + 1) =
        .error .missingAlphabet ∧
      mapRightAux d1 none 1 (4 + 1) [.A] d1.coveringPosition 0 =
        .error .missingAlphabet :=
  have h := mapRight_retraction_loop_behaviour d1 none .A d1.coveringPosition
    0 4 (by decide)
  ⟨(h.1 rfl).1, (h.1 rfl).2 1 []⟩

/-- Complementing a DNA base twice gives the base back. -/
theorem complement_complement (b : Base) : b.complement.complement = b := by
  cases b <;> rfl

/-- Reverse complement is an involution on base sequences. -/
theorem reverseComplement_involutive (q : List Base) :
    reverseComplement (reverseComplement q) = q := by
  unfold reverseComplement
  rw [List.map_reverse, List.reverse_reverse, List.map_map]
  have hid : Base.complement ∘ Base.complement = id :=
    funext fun b => complement_complement b
  rw [hid, List.map_id]

/-- C8: the strand-complement relation between the two one-sided mappers —
whenever `mapRight` succeeds on a query, `mapLeft` on the reverse complement
of that query succeeds with exactly the `mapRight` results reversed into
query order and flipped to the opposite strand (mapped locations get their
text XORed with 1 and their offset reflected within the contig; unmapped
entries are unchanged, which is what `flipMappingLoc` does). -/
theorem mapLeft_strand_complement (d : FMDIndexData) (mask : Mask)
    (minContext fuel : Nat) (q : List Base) (r : List Mapping)
    (h : mapRight d mask minContext fuel q = .ok r) :
    mapLeft d mask minContext fuel (reverseComplement q) =
      .ok (r.reverse.map (flipMappingLoc d)) := by
  unfold mapLeft
  rw [reverseComplement_involutive, h]
  rfl

/-- Witness for C8 at the concrete index: the single-base query `A` right-
maps to text 0 offset 0, and `mapLeft` of its reverse complement `T` returns
that mapping flipped to text 1, offset 7 of the length-8 contig. -/
theorem mapLeft_strand_complement_witness :
    mapLeft d0 none 1 5 (reverseComplement [.A]) =
      .ok ([Mapping.ofLocation ⟨0, 0⟩].reverse.map (flipMappingLoc d0)) :=
  mapLeft_strand_complement d0 none 1 5 [.A] [Mapping.ofLocation ⟨0, 0⟩] rfl

/-- Every extension kept by a single state of `misMatchExtend` survived the
length filter, so it is non-empty under the mask. -/
theorem mem_misMatchExtendOne (d : FMDIndexData) (c : Base) (backward : Bool)
    (zMax : Nat) (mask : Mask) (se fe : Bool) (pz p : FMDPosition × Nat)
    (hp : p ∈ misMatchExtendOne d c backward zMax mask se fe pz) :
    0 < p.1.lengthMask mask := by
  simp only [misMatchExtendOne] at hp
  have hmatched : ∀ q : FMDPosition × Nat,
      q ∈ (if 0 < (d.extend pz.1 c backward).lengthMask mask then
        [(d.extend pz.1 c backward, pz.2)] else []) →
      0 < q.1.lengthMask mask := by
    intro q hq
    split at hq
    · next hlen => simp only [List.mem_singleton] at hq; rw [hq]; exact hlen
    · simp at hq
  have hmis : ∀ q : FMDPosition × Nat,
      q ∈ (if pz.2 < zMax then
        (misMatchBases c).filterMap (fun b =>
          let e := d.extend pz.1 b backward
          if 0 < e.lengthMask mask then some (e, pz.2 + 1) else none)
        else []) →
      0 < q.1.lengthMask mask := by
    intro q hq
    split at hq
    · rcases List.mem_filterMap.mp hq with ⟨b, _, heq⟩
      simp only [] at heq
      split at heq
      · next hlen =>
        rw [Option.some.injEq] at heq
        rw [← heq]
        exact hlen
      · exact absurd heq (by simp)
    · simp at hq
  split at hp
  · exact hmatched p hp
  · split at hp
    · exact hmis p hp
    · rcases List.mem_append.mp hp with hp | hp
      · exact hmatched p hp
      · exact hmis p hp

/-- C10: whenever `misMatchExtend` returns (rather than throwing), the
positions vector of its result is non-empty — it is either the single pair
`(EMPTY_FMD_POSITION, 0)` (when no extension survived) or a list of
extensions that are all non-empty under the mask — so callers may always
inspect `positions.front()`. -/
theorem misMatchExtend_positions_nonempty (d : FMDIndexData)
    (prev : MisMatchAttemptResults) (c : Base) (backward : Bool) (zMax : Nat)
    (mask : Mask) (se fe : Bool) (r : MisMatchAttemptResults)
    (h : misMatchExtend d prev c backward zMax mask se fe = .ok r) :
    r.positions ≠ [] ∧
      (r.positions = [(EMPTY_FMD_POSITION, 0)] ∨
        ∀ p ∈ r.positions, 0 < p.1.lengthMask mask) := by
  unfold misMatchExtend at h
  split at h
  · exact absurd h (by simp)
  · split at h
    · exact absurd h (by simp)
    · simp only [Except.ok.injEq] at h
      subst h
      dsimp only
      by_cases hnext : prev.positions.flatMap
          (misMatchExtendOne d c backward zMax mask se fe) = []
      · rw [if_pos hnext]
        exact ⟨by simp, Or.inl rfl⟩
      · rw [if_neg hnext]
        refine ⟨hnext, Or.inr ?_⟩
        intro p hp
        rcases List.mem_flatMap.mp hp with ⟨pz, _, hmem⟩
        exact mem_misMatchExtendOne d c backward zMax mask se fe pz p hmem

/-- Witness for C10 at a concrete call: with the all-zero rank index every
extension dies, so the returned positions vector is exactly
`[(EMPTY_FMD_POSITION, 0)]` — non-empty as the invariant demands. -/
theorem misMatchExtend_positions_nonempty_witness :
    (⟨[(EMPTY_FMD_POSITION, 0)], 3, 0, true⟩ :
        MisMatchAttemptResults).positions ≠ [] ∧
      ((⟨[(EMPTY_FMD_POSITION, 0)], 3, 0, true⟩ :
          MisMatchAttemptResults).positions = [(EMPTY_FMD_POSITION, 0)] ∨
        ∀ p ∈ (⟨[(EMPTY_FMD_POSITION, 0)], 3, 0, true⟩ :
          MisMatchAttemptResults).positions, 0 < p.1.lengthMask none) :=
  misMatchExtend_positions_nonempty d1 ⟨[(⟨0, 0, 0⟩, 0)], 3, 7, true⟩ .A true
    1 none false false ⟨[(EMPTY_FMD_POSITION, 0)], 3, 0, true⟩ rfl

/-- `mnth` on the left part of an append. -/
theorem mnth_append_left {l l' : List Mapping} {i : Nat} (h : i < l.length) :
    mnth (l ++ l') i = mnth l i := by
  unfold mnth
  exact List.getD_append _ _ _ _ h

/-- `mnth` on the right part of an append. -/
theorem mnth_append_right {l l' : List Mapping} {i : Nat}
    (h : l.length ≤ i) : mnth (l ++ l') i = mnth l' (i - l.length) := by
  unfold mnth
  exact List.getD_append_right _ _ _ _ h

/-- `mnth` past the end of a vector yields the default unmapped mapping. -/
theorem mnth_default {l : List Mapping} {i : Nat} (h : l.length ≤ i) :
    mnth l i = Mapping.unmapped := by
  unfold mnth
  exact List.getD_eq_default _ _ h

/-- `mnth` of a mapped range of indices evaluates the generating function. -/
theorem mnth_map_range (f : Nat → Mapping) {n i : Nat} (h : i < n) :
    mnth ((List.range n).map f) i = f i := by
  unfold mnth
  rw [List.getD_eq_getElem?_getD, List.getElem?_map, List.getElem?_range h]
  rfl

/-- A found left sentinel indexes into the disambiguated vector. -/
theorem findLeftSentinel_lt_length {wU : List Base → Bool}
    {lM dis : List Mapping} {q : List Base} {ls : Nat}
    (h : findLeftSentinel wU lM dis q = some ls) : ls < dis.length := by
  unfold findLeftSentinel at h
  exact List.mem_range.mp (List.mem_of_find?_eq_some h)

/-- A found right sentinel indexes into the disambiguated vector. -/
theorem findRightSentinel_lt_length {wU : List Base → Bool}
    {rM dis : List Mapping} {q : List Base} {rs : Nat}
    (h : findRightSentinel wU rM dis q = some rs) : rs < dis.length := by
  unfold findRightSentinel at h
  have hmem := List.mem_of_find?_eq_some h
  rw [List.mem_reverse] at hmem
  exact List.mem_range.mp hmem

/-- With both sentinels found and space between them, the credit body is the
three-block concatenation from the three output loops of the source. -/
theorem creditApplyBody_blocks (wU : List Base → Bool)
    (lM rM dis : List Mapping) (q : List Base) (ls rs : Nat)
    (hfl : findLeftSentinel wU lM dis q = some ls)
    (hfr : findRightSentinel wU rM dis q = some rs) (hlt : ls < rs) :
    creditApplyBody wU lM rM dis q =
      ((List.range (ls + 1)).map (fun j => mnth dis j)) ++
        ((List.range (rs - (ls + 1))).map (fun k =>
          creditInterior lM rM dis (ls + 1 + k))) ++
        ((List.range (dis.length - rs)).map (fun k => mnth dis (rs + k))) := by
  unfold creditApplyBody
  rw [hfl, hfr]
  dsimp only
  rw [if_neg (not_le.mpr hlt)]

/-- Positions at or left of the left sentinel pass through the credit body
unchanged. -/
theorem creditApplyBody_nth_low (wU : List Base → Bool)
    (lM rM dis : List Mapping) (q : List Base) (ls rs i : Nat)
    (hfl : findLeftSentinel wU lM dis q = some ls)
    (hfr : findRightSentinel wU rM dis q = some rs) (hlt : ls < rs)
    (hi : i ≤ ls) :
    mnth (creditApplyBody wU lM rM dis q) i = mnth dis i := by
  rw [creditApplyBody_blocks wU lM rM dis q ls rs hfl hfr hlt]
  have h1 : i < (((List.range (ls + 1)).map (fun j => mnth dis j)) ++
      ((List.range (rs - (ls + 1))).map (fun k =>
        creditInterior lM rM dis (ls + 1 + k)))).length := by
    simp only [List.length_append, List.length_map, List.length_range]
    omega
  rw [mnth_append_left h1]
  have h2 : i < ((List.range (ls + 1)).map (fun j => mnth dis j)).length := by
    simp only [List.length_map, List.length_range]
    omega
  rw [mnth_append_left h2]
  exact mnth_map_range (fun j => mnth dis j) (by omega)

/-- Positions at or right of the right sentinel pass through the credit body
unchanged. -/
theorem creditApplyBody_nth_high (wU : List Base → Bool)
    (lM rM dis : List Mapping) (q : List Base) (ls rs i : Nat)
    (hfl : findLeftSentinel wU lM dis q = some ls)
    (hfr : findRightSentinel wU rM dis q = some rs) (hlt : ls < rs)
    (hi : rs ≤ i) :
    mnth (creditApplyBody wU lM rM dis q) i = mnth dis i := by
  have hrsL : rs < dis.length := findRightSentinel_lt_length hfr
  rw [creditApplyBody_blocks wU lM rM dis q ls rs hfl hfr hlt]
  by_cases hiL : i < dis.length
  · have h1 : (((List.range (ls + 1)).map (fun j => mnth dis j)) ++
        ((List.range (rs - (ls + 1))).map (fun k =>
          creditInterior lM rM dis (ls + 1 + k)))).length ≤ i := by
      simp only [List.length_append, List.length_map, List.length_range]
      omega
    rw [mnth_append_right h1]
    have h2 : (((List.range (ls + 1)).map (fun j => mnth dis j)) ++
        ((List.range (rs - (ls + 1))).map (fun k =>
          creditInterior lM rM dis (ls + 1 + k)))).length = rs := by
      simp only [List.length_append, List.length_map, List.length_range]
      omega
    rw [h2]
    rw [mnth_map_range (fun k => mnth dis (rs + k)) (by omega)]
    congr 1
    omega
  · have hIL : dis.length ≤ i := le_of_not_lt hiL
    rw [mnth_default (by
      simp only [List.length_append, List.length_map, List.length_range]
      omega)]
    rw [mnth_default hIL]

/-- Strictly interior positions of the credit body are the per-position
credit result. -/
theorem creditApplyBody_nth_mid (wU : List Base → Bool)
    (lM rM dis : List Mapping) (q : List Base) (ls rs i : Nat)
    (hfl : findLeftSentinel wU lM dis q = some ls)
    (hfr : findRightSentinel wU rM dis q = some rs)
    (hlo : ls < i) (hhi : i < rs) :
    mnth (creditApplyBody wU lM rM dis q) i =
      creditInterior lM rM dis i := by
  rw [creditApplyBody_blocks wU lM rM dis q ls rs hfl hfr
    (Nat.lt_trans hlo hhi)]
  have h1 : i < (((List.range (ls + 1)).map (fun j => mnth dis j)) ++
      ((List.range (rs - (ls + 1))).map (fun k =>
        creditInterior lM rM dis (ls + 1 + k)))).length := by
    simp only [List.length_append, List.length_map, List.length_range]
    omega
  rw [mnth_append_left h1]
  have h2 : ((List.range (ls + 1)).map (fun j => mnth dis j)).length ≤ i := by
    simp only [List.length_map, List.length_range]
    omega
  rw [mnth_append_right h2]
  have h3 : ((List.range (ls + 1)).map (fun j => mnth dis j)).length =
      ls + 1 := by
    simp only [List.length_map, List.length_range]
  rw [h3]
  rw [mnth_map_range (fun k => creditInterior lM rM dis (ls + 1 + k))
    (by omega)]
  congr 1
  omega

/-- Left mappings of a concrete six-base credit scenario: sentinels at the
ends, an unmapped middle, and two left-mapped neighbours (positions 3 and 4)
whose left contexts reach position 2 but imply different locations. -/
def cexLeftM : List Mapping :=
  [⟨⟨0, 0⟩, true, 1, 1, 1, 1⟩,
   Mapping.unmapped,
   Mapping.unmapped,
   ⟨⟨0, 9⟩, true, 2, 1, 1, 1⟩,
   ⟨⟨0, 20⟩, true, 3, 1, 1, 1⟩,
   Mapping.unmapped]

/-- Right mappings of the credit scenario: one right-mapped neighbour
(position 1) whose right context reaches position 2 consistently, and the
right sentinel at position 5. -/
def cexRightM : List Mapping :=
  [Mapping.unmapped,
   ⟨⟨0, 1⟩, true, 1, 2, 1, 1⟩,
   Mapping.unmapped,
   Mapping.unmapped,
   Mapping.unmapped,
   ⟨⟨0, 5⟩, true, 1, 1, 1, 1⟩]

/-- The six-base query of the credit scenario. -/
def cexQuery : List Base := [.A, .A, .A, .A, .A, .A]

/-- C6: if either sentinel is missing, or the right sentinel is at or left
of the left sentinel, `CreditFilter2::apply` returns the disambiguated
vector unchanged; in every case every output entry at or left of the
left sentinel, or at or right of the right sentinel, equals the
corresponding disambiguated entry; and a strictly interior position that is
mapped in the disambiguated vector also passes through unchanged — so only
strictly interior unmapped positions can be rewritten. -/
theorem creditFilter2_frame (wU : List Base → Bool) (lM rM : List Mapping)
    (q : List Base) :
    ((findLeftSentinel wU lM (disambiguateFilter lM rM) q = none ∨
      findRightSentinel wU rM (disambiguateFilter lM rM) q = none ∨
      (∀ ls rs,
        findLeftSentinel wU lM (disambiguateFilter lM rM) q = some ls →
        findRightSentinel wU rM (disambiguateFilter lM rM) q = some rs →
        rs ≤ ls)) →
      creditFilter2Apply wU lM rM q = disambiguateFilter lM rM) ∧
    (∀ ls rs i,
      findLeftSentinel wU lM (disambiguateFilter lM rM) q = some ls →
      findRightSentinel wU rM (disambiguateFilter lM rM) q = some rs →
      i ≤ ls ∨ rs ≤ i →
      mnth (creditFilter2Apply wU lM rM q) i =
        mnth (disambiguateFilter lM rM) i) ∧
    (∀ ls rs i,
      findLeftSentinel wU lM (disambiguateFilter lM rM) q = some ls →
      findRightSentinel wU rM (disambiguateFilter lM rM) q = some rs →
      ls < i → i < rs →
      (mnth (disambiguateFilter lM rM) i).is_mapped = true →
      mnth (creditFilter2Apply wU lM rM q) i =
        mnth (disambiguateFilter lM rM) i) := by
  refine ⟨?_, ?_, ?_⟩
  · intro h
    unfold creditFilter2Apply creditApplyBody
    cases hfl : findLeftSentinel wU lM (disambiguateFilter lM rM) q with
    | none =>
      cases hfr : findRightSentinel wU rM (disambiguateFilter lM rM) q with
      | none => rfl
      | some rs => rfl
    | some ls =>
      cases hfr : findRightSentinel wU rM (disambiguateFilter lM rM) q with
      | none => rfl
      | some rs =>
        dsimp only
        rcases h with h | h | h
        · simp [hfl] at h
        · simp [hfr] at h
        · rw [if_pos (h ls rs hfl hfr)]
  · intro ls rs i hfl hfr hi
    by_cases hord : rs ≤ ls
    · have happ : creditFilter2Apply wU lM rM q =
          disambiguateFilter lM rM := by
        unfold creditFilter2Apply creditApplyBody
        rw [hfl, hfr]
        dsimp only
        rw [if_pos hord]
      rw [happ]
    · have hlt : ls < rs := not_le.mp hord
      unfold creditFilter2Apply
      rcases hi with hi | hi
      · exact creditApplyBody_nth_low wU lM rM _ q ls rs i hfl hfr hlt hi
      · exact creditApplyBody_nth_high wU lM rM _ q ls rs i hfl hfr hlt hi
  · intro ls rs i hfl hfr hlo hhi hmapped
    unfold creditFilter2Apply
    rw [creditApplyBody_nth_mid wU lM rM _ q ls rs i hfl hfr hlo hhi]
    unfold creditInterior
    rw [if_pos hmapped]

/-- Witness for C6 at two concrete calls: with no sentinels (nothing is
mapped) the filter returns the disambiguated vector unchanged, and in the
six-base credit scenario the interior position 3, which is mapped after
disambiguation, also passes through unchanged. -/
theorem creditFilter2_frame_witness :
    creditFilter2Apply (fun _ => true) [Mapping.unmapped] [Mapping.unmapped]
        [.A] =
      disambiguateFilter [Mapping.unmapped] [Mapping.unmapped] ∧
    mnth (creditFilter2Apply (fun _ => true) cexLeftM cexRightM cexQuery) 3 =
      mnth (disambiguateFilter cexLeftM cexRightM) 3 :=
  ⟨(creditFilter2_frame (fun _ => true) [Mapping.unmapped] [Mapping.unmapped]
      [.A]).1 (Or.inl rfl),
    (creditFilter2_frame (fun _ => true) cexLeftM cexRightM cexQuery).2.2
      0 5 3 rfl rfl (by decide) (by decide) rfl⟩

/-- Counterexample to C7 as stated: at interior position 2 of the concrete
scenario the left-side implications are found but inconsistent (positions 3
and 4 imply different locations), the right side is consistent, and
`CreditFilter2::apply` nevertheless emits a mapped result from the right —
an inconsistency on one side does not yield an unmapped result when the
other side is consistent. -/
theorem creditFilter2_inconsistent_side_counterexample :
    leftCredit cexLeftM (disambiguateFilter cexLeftM cexRightM)
        (maxLeftContextOf (disambiguateFilter cexLeftM cexRightM)) 2 =
      (true, ⟨0, 8⟩, false) ∧
      rightCredit cexRightM (disambiguateFilter cexLeftM cexRightM)
          (maxRightContextOf (disambiguateFilter cexLeftM cexRightM)) 2 =
        (true, ⟨0, 2⟩, true) ∧
      (mnth (disambiguateFilter cexLeftM cexRightM) 2).is_mapped = false ∧
      findLeftSentinel (fun _ => true) cexLeftM
        (disambiguateFilter cexLeftM cexRightM) cexQuery = some 0 ∧
      findRightSentinel (fun _ => true) cexRightM
        (disambiguateFilter cexLeftM cexRightM) cexQuery = some 5 ∧
      mnth (creditFilter2Apply (fun _ => true) cexLeftM cexRightM cexQuery)
        2 = Mapping.ofLocation ⟨0, 2⟩ :=
  ⟨rfl, rfl, rfl, rfl, rfl, rfl⟩

/-- C7 (amended): an interior unmapped position between the sentinels gets
the credit decision computed from the two neighbour scans, and that decision
is mapped exactly when at least one side is found-and-consistent and, when
both sides are, their credit positions agree; a side that found implications
but was inconsistent is disregarded rather than forcing an unmapped result,
and the emitted location is the left credit position when the left side is
found-and-consistent, the right one otherwise. -/
theorem creditFilter2_interior_decision (wU : List Base → Bool)
    (lM rM : List Mapping) (q : List Base) (ls rs i : Nat)
    (hfl : findLeftSentinel wU lM (disambiguateFilter lM rM) q = some ls)
    (hfr : findRightSentinel wU rM (disambiguateFilter lM rM) q = some rs)
    (hlo : ls < i) (hhi : i < rs)
    (hunm : (mnth (disambiguateFilter lM rM) i).is_mapped = false) :
    mnth (creditFilter2Apply wU lM rM q) i =
      creditDecision
        (leftCredit lM (disambiguateFilter lM rM)
          (maxLeftContextOf (disambiguateFilter lM rM)) i)
        (rightCredit rM (disambiguateFilter lM rM)
          (maxRightContextOf (disambiguateFilter lM rM)) i) ∧
    ∀ lres rres : Bool × TextPosition × Bool,
      ((creditDecision lres rres).is_mapped = true ↔
        ((lres.1 = true ∧ lres.2.2 = true) ∨
          (rres.1 = true ∧ rres.2.2 = true)) ∧
        (lres.1 = true ∧ lres.2.2 = true →
          rres.1 = true ∧ rres.2.2 = true → lres.2.1 = rres.2.1)) ∧
      ((creditDecision lres rres).is_mapped = true →
        (creditDecision lres rres).location =
          if lres.1 = true ∧ lres.2.2 = true then lres.2.1
          else rres.2.1) := by
  constructor
  · unfold creditFilter2Apply
    rw [creditApplyBody_nth_mid wU lM rM _ q ls rs i hfl hfr hlo hhi]
    unfold creditInterior
    rw [if_neg (by simp [hunm])]
  · intro lres rres
    constructor
    · unfold creditDecision
      by_cases hl : lres.1 = true ∧ lres.2.2 = true <;>
        by_cases hr : rres.1 = true ∧ rres.2.2 = true <;>
          by_cases heq : lres.2.1 = rres.2.1 <;>
            simp [hl, hr, heq, Mapping.ofLocation, Mapping.unmapped]
    · intro hm
      unfold creditDecision at hm ⊢
      by_cases hl : lres.1 = true ∧ lres.2.2 = true <;>
        by_cases hr : rres.1 = true ∧ rres.2.2 = true <;>
          by_cases heq : lres.2.1 = rres.2.1 <;>
            simp [hl, hr, heq, Mapping.ofLocation, Mapping.unmapped] at hm ⊢

/-- Witness for the amended C7 at the concrete scenario: the output of the filter
at interior position 2 is exactly the credit decision of the two scans. -/
theorem creditFilter2_interior_decision_witness :
    mnth (creditFilter2Apply (fun _ => true) cexLeftM cexRightM cexQuery) 2 =
      creditDecision
        (leftCredit cexLeftM (disambiguateFilter cexLeftM cexRightM)
          (maxLeftContextOf (disambiguateFilter cexLeftM cexRightM)) 2)
        (rightCredit cexRightM (disambiguateFilter cexLeftM cexRightM)
          (maxRightContextOf (disambiguateFilter cexLeftM cexRightM)) 2) :=
  (creditFilter2_interior_decision (fun _ => true) cexLeftM cexRightM
    cexQuery 0 5 2 rfl rfl (by decide) (by decide) rfl).1
